import Mathlib

/-!
Shallow embedding of the bank-statement editing core
(balance calculator, date sequencer, offline rule-based extractor,
transaction model) together with proofs about its behaviour.

Python floats are idealised as rationals (`ℚ`); `round(x, 2)` is modelled
by `round2` (round half to even, as CPython does); `int(x)` by `pyInt`
(truncation toward zero); calendar dates by `ℤ` (days since an epoch:
Python `date` subtraction yields day counts and `timedelta(days=n)`
addition is integer addition).
-/

namespace StateAutomation

/-- Banker's rounding to an integer (round half to even), the rounding mode
of Python's builtin `round`. -/
def bankRound (q : ℚ) : ℤ :=
  if Int.fract q < 1/2 then ⌊q⌋
  else if (1 : ℚ)/2 < Int.fract q then ⌊q⌋ + 1
  else if Even ⌊q⌋ then ⌊q⌋ else ⌊q⌋ + 1

/-- Model of Python `round(x, 2)`. -/
def round2 (q : ℚ) : ℚ := (bankRound (q * 100) : ℚ) / 100

/-- Model of Python `int(x)`: truncation toward zero. -/
def pyInt (q : ℚ) : ℤ := if 0 ≤ q then ⌊q⌋ else ⌈q⌉

/-- A rational that is exactly representable with two decimal places. -/
def TwoDec (q : ℚ) : Prop := ∃ n : ℤ, q = (n : ℚ) / 100

/-! ## Data model (`src/models/statement_schema.py`) -/

/-- `Header` from `statement_schema.py`. -/
structure Header where
  bank_name : Option String
  account_holder : String
  account_number : String
  ifsc : Option String
  micr : Option String
  branch : Option String
  statement_period : Option String
  address : Option String
deriving DecidableEq

/-- `Transaction` from `statement_schema.py`; dates are days since an epoch. -/
structure Transaction where
  date : ℤ
  description : String
  credit : ℚ
  debit : ℚ
  balance : ℚ
  ref : Option String
  original_date : Option ℤ
deriving DecidableEq

/-- Pydantic model construction: the `round_amounts` field validator runs on
`credit`, `debit` and `balance` when a `Transaction` value is created/validated. -/
def mkTransaction (date : ℤ) (description : String) (credit debit balance : ℚ)
    (ref : Option String) (original_date : Option ℤ) : Transaction :=
  { date := date, description := description,
    credit := round2 credit, debit := round2 debit, balance := round2 balance,
    ref := ref, original_date := original_date }

/-- Plain attribute assignment `txn.credit = v`: the schema does not enable
pydantic's `validate_assignment`, so no validator runs and the raw value is
stored. -/
def Transaction.setCredit (t : Transaction) (v : ℚ) : Transaction :=
  { t with credit := v }

/-- Plain attribute assignment `txn.debit = v` (no validation on assignment). -/
def Transaction.setDebit (t : Transaction) (v : ℚ) : Transaction :=
  { t with debit := v }

/-- Plain attribute assignment `txn.balance = v` (no validation on assignment). -/
def Transaction.setBalance (t : Transaction) (v : ℚ) : Transaction :=
  { t with balance := v }

/-- `BankStatement` from `statement_schema.py` (the fields the core
algorithms read or write; page ranges and extra columns are untouched
passthrough data). -/
structure BankStatement where
  header : Header
  transactions : List Transaction
  opening_balance : ℚ
  closing_balance : ℚ
  total_credits : ℚ
  total_debits : ℚ
deriving DecidableEq

/-! ## Balance calculator (`src/processors/balance_calculator.py`) -/

/-- The loop body of `BalanceCalculator.recalculate`: walks the transactions,
carrying the (unrounded) running balance and the (unrounded) credit/debit
totals, writing `round(running, 2)` into each transaction's balance.
Returns the rewritten transactions and the final running/total values. -/
def recalcAux (running totc totd : ℚ) : List Transaction → List Transaction × ℚ × ℚ × ℚ
  | [] => ([], running, totc, totd)
  | t :: ts =>
      let running' := running + t.credit - t.debit
      let rest := recalcAux running' (totc + t.credit) (totd + t.debit) ts
      ({ t with balance := round2 running' } :: rest.1, rest.2)

/-- `BalanceCalculator.recalculate`. -/
def recalculate (s : BankStatement) : BankStatement :=
  let r := recalcAux s.opening_balance 0 0 s.transactions
  { s with transactions := r.1,
           total_credits := round2 r.2.2.1,
           total_debits := round2 r.2.2.2,
           closing_balance := round2 r.2.1 }

/-- Forget the fields `recalculate` writes on a transaction (the balance). -/
def scrubTxn (t : Transaction) : Transaction := { t with balance := 0 }

/-- Forget every field `recalculate` writes: per-transaction balances,
the totals and the closing balance. -/
def scrubStatement (s : BankStatement) : BankStatement :=
  { s with transactions := s.transactions.map scrubTxn,
           closing_balance := 0, total_credits := 0, total_debits := 0 }

/-! ## Date sequencer (`src/processors/date_sequencer.py`) -/

/-- The `for txn in transactions: txn.original_date = txn.date` loop of
`DateSequencer.sequence_dates`. -/
def setOriginalDates (ts : List Transaction) : List Transaction :=
  ts.map fun t => { t with original_date := some t.date }

/-- `for i, txn in enumerate(transactions)` with an index-aware body. -/
def mapWithIdx (f : ℕ → Transaction → Transaction) : ℕ → List Transaction → List Transaction
  | _, [] => []
  | i, t :: ts => f i t :: mapWithIdx f (i + 1) ts

/-- `DateSequencer._uniform_distribution`: spread the transactions evenly
over `[start_date, end_date]`; singleton lists are pinned to `start_date`. -/
def uniformDistribution (ts : List Transaction) (start_date end_date : ℤ) : List Transaction :=
  let total_days : ℤ := end_date - start_date
  if ts.length = 1 then
    ts.map fun t => { t with date := start_date }
  else
    let day_interval : ℚ := (total_days : ℚ) / ((ts.length : ℚ) - 1)
    mapWithIdx (fun i t => { t with date := start_date + pyInt ((i : ℚ) * day_interval) }) 0 ts

/-- The Python `min` of the dates of a (nonempty) transaction list. -/
def minDate (l : List ℤ) : ℤ := l.foldl min (l.headD 0)

/-- The Python `max` of the dates of a (nonempty) transaction list. -/
def maxDate (l : List ℤ) : ℤ := l.foldl max (l.headD 0)

/-- `DateSequencer._preserve_spacing`: rescale the original day offsets onto
the new window; falls back to `uniformDistribution` when all original dates
are identical (`len(set(original_dates)) == 1`) or the original span is 0. -/
def preserveSpacing (ts : List Transaction) (start_date end_date : ℤ) : List Transaction :=
  let original_dates := ts.map Transaction.date
  if original_dates.dedup.length = 1 then
    uniformDistribution ts start_date end_date
  else
    let min_orig := minDate original_dates
    let max_orig := maxDate original_dates
    let orig_range : ℤ := max_orig - min_orig
    let new_range : ℤ := end_date - start_date
    if orig_range = 0 then
      uniformDistribution ts start_date end_date
    else
      let scale_factor : ℚ := (new_range : ℚ) / (orig_range : ℚ)
      ts.map fun t =>
        { t with date := start_date + pyInt (((t.date - min_orig : ℤ) : ℚ) * scale_factor) }

/-- `DateSequencer.sequence_dates`: store original dates, then dispatch on
the method flag (anything other than `"preserve_spacing"` selects the
uniform distribution). Empty lists are returned unchanged. -/
def sequence_dates (ts : List Transaction) (start_date end_date : ℤ)
    (method : String) : List Transaction :=
  if ts.isEmpty then ts
  else
    let ts' := setOriginalDates ts
    if method = "preserve_spacing" then preserveSpacing ts' start_date end_date
    else uniformDistribution ts' start_date end_date

/-! ## Offline rule-based extractor (`src/parsers/llm_extractor.py`,
`LLMExtractor._extract_with_rules` and `_parse_amount`)

The transaction-row regex

  `^(?P<date>\d{4}-\d{2}-\d{2})\s+(?P<desc>.+?)\s+(?P<amount1>A)?\s*(?P<amount2>A)?\s*(?P<balance>A)?$`

with `A = [₹$]?[\d,]+(?:\.\d{1,2})?` is embedded as a specialised
backtracking matcher: every quantifier's alternatives are enumerated in
the regex engine's preference order (greedy = longest first, lazy =
shortest first, optional group = present first) and the first full match
wins, exactly as CPython's `re` backtracks.  Character classes are ASCII
(`\d` = `0-9`, `\s` = space/tab/newline/return/vtab/formfeed), matching
the inputs this parser is meant for. -/

/-- ASCII model of the regex class `\s` and of `str.strip`'s whitespace. -/
def isWsC (c : Char) : Bool :=
  c = ' ' || c = '\t' || c = '\n' || c = '\r' || c = '\x0b' || c = '\x0c'

/-- The regex class `\d`. -/
def isDigitC (c : Char) : Bool := c.isDigit

/-- The characters removed by `re.sub(r"[₹$,\s]", "", text)` in
`_parse_amount`. -/
def isStrippedChar (c : Char) : Bool :=
  c = '₹' || c = '$' || c = ',' || isWsC c

/-- `re.sub(r"[₹$,\s]", "", text)`. -/
def cleanAmount (s : String) : String :=
  String.mk (s.data.filter fun c => !isStrippedChar c)

/-- Numeric value of a digit string (most significant first). -/
def digitsVal (ds : List Char) : ℕ :=
  ds.foldl (fun acc c => 10 * acc + (c.toNat - 48)) 0

/-- Parse an (already sign-stripped) decimal literal: digits, optionally
followed by a point and more digits, at least one digit in total. -/
def parseFloatCore (cs : List Char) (sgn : ℚ) : Option ℚ :=
  let intPart := cs.takeWhile isDigitC
  let rest := cs.dropWhile isDigitC
  match rest with
  | [] => if intPart.isEmpty then none else some (sgn * (digitsVal intPart : ℚ))
  | '.' :: r2 =>
      let fracPart := r2.takeWhile isDigitC
      let rest2 := r2.dropWhile isDigitC
      if rest2.isEmpty && !(intPart.isEmpty && fracPart.isEmpty) then
        some (sgn * ((digitsVal intPart : ℚ)
          + (digitsVal fracPart : ℚ) / (10 : ℚ) ^ fracPart.length))
      else none
  | _ => none

/-- Model of Python `float(str)` on plain decimal literals (optional sign,
digits, optional decimal point).  Scientific notation, underscore
separators and `inf`/`nan` — none of which the extractor's cleaned tokens
can contain — are outside the model and map to `none`. -/
def parseFloat? (s : String) : Option ℚ :=
  match s.data with
  | [] => none
  | c :: cs =>
      if c = '+' then parseFloatCore cs 1
      else if c = '-' then parseFloatCore cs (-1)
      else parseFloatCore (c :: cs) 1

/-- `_parse_amount`: `None`/empty tokens and parse failures give `0.0`,
otherwise the cleaned token's value rounded to 2 decimals. -/
def pyParseAmount : Option String → ℚ
  | none => 0
  | some t =>
      if t = "" then 0
      else
        match parseFloat? (cleanAmount t) with
        | some q => round2 q
        | none => 0

/-- The `credit = a1 if a1 and not a2 else (a1 if (a1 and a2 == 0) else 0.0)`
line: both Python conditionals are truthy exactly when `a1 ≠ 0 ∧ a2 = 0`. -/
def creditRule (a1 a2 : ℚ) : ℚ :=
  if a1 ≠ 0 ∧ a2 = 0 then a1 else if a1 ≠ 0 ∧ a2 = 0 then a1 else 0

/-- The symmetric `debit = ...` line. -/
def debitRule (a1 a2 : ℚ) : ℚ :=
  if a2 ≠ 0 ∧ a1 = 0 then a2 else if a2 ≠ 0 ∧ a1 = 0 then a2 else 0

/-- The named capture groups of the transaction-row pattern. -/
structure TxnMatch where
  date : String
  desc : String
  amount1 : Option String
  amount2 : Option String
  balanceTok : Option String
deriving DecidableEq

/-- Splits of a maximal `p`-run prefix, longest first (greedy `[..]+`):
`(taken, rest)` for every taken-length from the run length down to 1. -/
def splitsDesc (cs : List Char) (p : Char → Bool) : List (List Char × List Char) :=
  let run := (cs.takeWhile p).length
  (List.range run).map fun j => (cs.take (run - j), cs.drop (run - j))

/-- Alternatives of `(?:\.\d{1,2})?`, preference order: 2 fraction digits,
1 digit, absent. -/
def fracOpts (cs : List Char) : List (List Char × List Char) :=
  (match cs with
   | '.' :: rest =>
       let n := min (rest.takeWhile isDigitC).length 2
       (List.range n).map fun j => ('.' :: rest.take (n - j), rest.drop (n - j))
   | _ => []) ++ [([], cs)]

/-- Alternatives of `[₹$]?`, present first. -/
def curOpts (cs : List Char) : List (List Char × List Char) :=
  (match cs with
   | c :: rest => if c = '₹' || c = '$' then [([c], rest)] else []
   | [] => []) ++ [([], cs)]

/-- All ways `[₹$]?[\d,]+(?:\.\d{1,2})?` can match a prefix, in the regex
engine's backtracking order. -/
def amountMatches (cs : List Char) : List (List Char × List Char) :=
  (curOpts cs).flatMap fun pr1 =>
    (splitsDesc pr1.2 fun c => isDigitC c || c = ',').flatMap fun pr2 =>
      (fracOpts pr2.2).map fun pr3 => (pr1.1 ++ pr2.1 ++ pr3.1, pr3.2)

/-- Alternatives of an optional (greedy) amount group: every present match
first, then absent. -/
def optAmount (cs : List Char) : List (Option (List Char) × List Char) :=
  ((amountMatches cs).map fun pr => (some pr.1, pr.2)) ++ [(none, cs)]

/-- Alternatives of `\s*` (greedy): remaining input after consuming the
whole whitespace run, then one character fewer, …, then nothing. -/
def wsStarOpts (cs : List Char) : List (List Char) :=
  let run := (cs.takeWhile isWsC).length
  (List.range (run + 1)).map fun j => cs.drop (run - j)

/-- Alternatives of `\s+` (greedy, at least one). -/
def wsPlusOpts (cs : List Char) : List (List Char) :=
  let run := (cs.takeWhile isWsC).length
  (List.range run).map fun j => cs.drop (run - j)

/-- `(?P<amount1>A)?\s*(?P<amount2>A)?\s*(?P<balance>A)?$`: first full
match in backtracking order, returning the three captures. -/
def tailMatches (cs : List Char) : Option (Option String × Option String × Option String) :=
  (optAmount cs).findSome? fun a1r =>
    (wsStarOpts a1r.2).findSome? fun r2 =>
      (optAmount r2).findSome? fun a2r =>
        (wsStarOpts a2r.2).findSome? fun r4 =>
          (optAmount r4).findSome? fun balr =>
            if balr.2.isEmpty then
              some (a1r.1.map String.mk, a2r.1.map String.mk, balr.1.map String.mk)
            else none

/-- `\d{4}-\d{2}-\d{2}` at the start of the line. -/
def matchDate : List Char → Option (List Char × List Char)
  | a :: b :: c :: d :: '-' :: e :: f :: '-' :: g :: h :: rest =>
      if isDigitC a && isDigitC b && isDigitC c && isDigitC d && isDigitC e
          && isDigitC f && isDigitC g && isDigitC h then
        some ([a, b, c, d, '-', e, f, '-', g, h], rest)
      else none
  | _ => none

/-- Alternatives of `(?P<desc>.+?)` (lazy): shortest non-empty prefix first. -/
def descOpts (cs : List Char) : List (List Char × List Char) :=
  (List.range cs.length).map fun j => (cs.take (j + 1), cs.drop (j + 1))

/-- `txn_pattern.match(ln)`: the whole anchored transaction-row pattern. -/
def matchTxnLine (s : String) : Option TxnMatch :=
  match matchDate s.data with
  | none => none
  | some dtr =>
      (wsPlusOpts dtr.2).findSome? fun r1 =>
        (descOpts r1).findSome? fun dr =>
          (wsPlusOpts dr.2).findSome? fun r3 =>
            (tailMatches r3).map fun t =>
              { date := String.mk dtr.1, desc := String.mk dr.1,
                amount1 := t.1, amount2 := t.2.1, balanceTok := t.2.2 }

/-- One entry of the `transactions` list of dicts built per matched row
(the constant `"ref": None` field is omitted). -/
structure RawTxn where
  date : String
  description : String
  credit : ℚ
  debit : ℚ
  balance : ℚ
deriving DecidableEq

/-- The body of the row loop: parse the captured tokens and apply the
credit/debit disambiguation. -/
def rowOfMatch (m : TxnMatch) : RawTxn :=
  let a1 := pyParseAmount m.amount1
  let a2 := pyParseAmount m.amount2
  let bal := pyParseAmount m.balanceTok
  { date := m.date, description := m.desc,
    credit := creditRule a1 a2, debit := debitRule a1 a2, balance := bal }

/-- `str.splitlines` (on `\n`, `\r\n`, `\r`, `\x0b`, `\x0c`; a trailing
terminator does not produce a final empty line). -/
def pySplitlinesAux : List Char → List Char → List (List Char)
  | [], acc => if acc.isEmpty then [] else [acc.reverse]
  | '\r' :: '\n' :: rest, acc => acc.reverse :: pySplitlinesAux rest []
  | c :: rest, acc =>
      if c = '\n' || c = '\r' || c = '\x0b' || c = '\x0c' then
        acc.reverse :: pySplitlinesAux rest []
      else pySplitlinesAux rest (c :: acc)

/-- `raw_text.splitlines()`. -/
def pySplitlines (s : String) : List String :=
  (pySplitlinesAux s.data []).map String.mk

/-- `str.strip()`. -/
def pyStrip (s : String) : String :=
  String.mk (((s.data.dropWhile isWsC).reverse.dropWhile isWsC).reverse)

/-- `[ln.strip() for ln in raw_text.splitlines() if ln.strip()]`. -/
def linesOf (raw : String) : List String :=
  ((pySplitlines raw).map pyStrip).filter fun l => l ≠ ""

/-- Case-insensitive literal matching (the pattern letters are lowercase). -/
def litCaseless : List Char → List Char → Option (List Char)
  | [], cs => some cs
  | _ :: _, [] => none
  | p :: ps, c :: cs => if c.toLower = p then litCaseless ps cs else none

/-- The capture group `([₹$]?[\d,]+(?:\.\d{1,2})?)` of the opening-balance
pattern at the current position.  Greedy throughout; if the optional
currency symbol is consumed but no digits follow, back off to matching
without it (which then fails on the symbol). -/
def amountGreedy (cs : List Char) : Option (List Char) :=
  let core : List Char → List Char → Option (List Char) := fun pre cs2 =>
    let run := cs2.takeWhile fun c => isDigitC c || c = ','
    if run.isEmpty then none
    else
      let rest := cs2.drop run.length
      let frac : List Char :=
        match rest with
        | '.' :: r =>
            let k := min (r.takeWhile isDigitC).length 2
            if k = 0 then [] else '.' :: r.take k
        | _ => []
      some (pre ++ run ++ frac)
  match cs with
  | c :: rest =>
      if c = '₹' || c = '$' then
        match core [c] rest with
        | some cap => some cap
        | none => core [] cs
      else core [] cs
  | [] => none

/-- `opening\s*balance[:\-]\s*(amount)` at the current position
(`re.IGNORECASE`). -/
def matchOpeningAt (cs : List Char) : Option (List Char) :=
  match litCaseless "opening".data cs with
  | none => none
  | some r1 =>
      match litCaseless "balance".data (r1.dropWhile isWsC) with
      | none => none
      | some r3 =>
          match r3 with
          | c :: r4 =>
              if c = ':' || c = '-' then amountGreedy (r4.dropWhile isWsC) else none
          | [] => none

/-- `re.search`: try the pattern at each position, leftmost match wins. -/
def searchOpening : List Char → Option (List Char)
  | [] => none
  | c :: rest =>
      match matchOpeningAt (c :: rest) with
      | some cap => some cap
      | none => searchOpening rest

/-- `_find([r"opening\s*balance[:\-]\s*(...)"])`: first line with a match;
the capture is `.strip()`-ed. -/
def findOpening (lines : List String) : Option String :=
  lines.findSome? fun ln => (searchOpening ln.data).map fun cap => pyStrip (String.mk cap)

/-- `if ob_match: opening_balance = _parse_amount(ob_match)` (an empty
capture is falsy and leaves the 0.0 default). -/
def openingBalanceOf (lines : List String) : ℚ :=
  match findOpening lines with
  | some t => if t = "" then 0 else pyParseAmount (some t)
  | none => 0

/-- The balance-backfill loop: a row whose parsed balance is `0.0` gets the
running total (kept unrounded across rows, rounded into the row), any other
row is kept as-is and resets the running total to its balance. -/
def backfillAux (running : ℚ) : List RawTxn → List RawTxn
  | [] => []
  | t :: ts =>
      if t.balance = 0 then
        let r2 := running + t.credit - t.debit
        { t with balance := round2 r2 } :: backfillAux r2 ts
      else
        t :: backfillAux t.balance ts

/-- The running total the backfill carries: fold of the first `k` rows. -/
def runningAt (opening : ℚ) (rows : List RawTxn) (k : ℕ) : ℚ :=
  (rows.take k).foldl
    (fun r t => if t.balance = 0 then r + t.credit - t.debit else t.balance) opening

/-- The parts of the returned payload dict that the claims talk about
(header fields are untouched by any claim and omitted). -/
structure OfflinePayload where
  transactions : List RawTxn
  opening_balance : ℚ
  closing_balance : ℚ
deriving DecidableEq

/-- The fallback transaction emitted when no row matched; `today` stands
for `datetime.today().strftime("%Y-%m-%d")`, injected as a parameter. -/
def placeholderTxn (today : String) (opening : ℚ) : RawTxn :=
  { date := today, description := "Parsed with offline rules",
    credit := 0, debit := 0, balance := opening }

/-- `LLMExtractor._extract_with_rules`: lines, opening balance, matched
rows, balance backfill, closing balance, and the placeholder fallback. -/
def extractWithRules (today : String) (raw : String) : OfflinePayload :=
  let lines := linesOf raw
  let opening := openingBalanceOf lines
  let rows := lines.filterMap fun ln => (matchTxnLine ln).map rowOfMatch
  if rows.isEmpty then
    { transactions := [placeholderTxn today opening],
      opening_balance := opening, closing_balance := opening }
  else
    let filled := backfillAux opening rows
    { transactions := filled, opening_balance := opening,
      closing_balance := (filled.getLastD (placeholderTxn today opening)).balance }

/-- The ten ASCII digit characters. -/
def digitChars : List Char := ['0', '1', '2', '3', '4', '5', '6', '7', '8', '9']

/-! ## Example inputs used by the witness theorems -/

/-- A concrete header. -/
def exHeader : Header :=
  ⟨none, "John Doe", "123456789", none, none, none, none, none⟩

/-- Concrete transaction: credit 1000 on day 0. -/
def exTxn1 : Transaction := ⟨0, "Salary Credit", 1000, 0, 0, none, none⟩

/-- Concrete transaction: debit 200 on day 4. -/
def exTxn2 : Transaction := ⟨4, "ATM Withdrawal", 0, 200, 0, none, none⟩

/-- Concrete statement: opening balance 1000 with the two transactions above. -/
def exStmt : BankStatement := ⟨exHeader, [exTxn1, exTxn2], 1000, 0, 0, 0⟩

/-- `exStmt` with stale balances, totals and closing balance scribbled in. -/
def exStmtStale : BankStatement :=
  ⟨exHeader, [{ exTxn1 with balance := 77 }, { exTxn2 with balance := -3 }], 1000, 55, 9, 9⟩

/-- Two transactions whose dates are in reverse chronological order
(day 4 first, then day 0). -/
def exRevTxns : List Transaction :=
  [⟨4, "Later first", 0, 0, 0, none, none⟩, ⟨0, "Earlier second", 0, 0, 0, none, none⟩]

/-- Two transactions carrying the same date (day 5). -/
def exSameDateTxns : List Transaction :=
  [⟨5, "One", 10, 0, 0, none, none⟩, ⟨5, "Two", 0, 3, 0, none, none⟩]

/-- Raw text with a header and opening balance but no transaction rows. -/
def exNoTxnText : String := "Account Holder: John Doe\nOpening Balance: 250.00"

/-- Raw text whose single transaction row carries an explicitly captured
balance token `0.00`. -/
def exC8Text : String := "Opening Balance: 500.00\n2024-01-02 Shop 100.00 0.00 0.00"

/-- Two extracted rows: the first with parsed balance 0 (to be backfilled),
the second with a captured non-zero balance. -/
def exRows : List RawTxn :=
  [⟨"2024-01-02", "Shop", 100, 0, 0⟩, ⟨"2024-01-03", "Refund", 0, 0, 250⟩]

/-! ## Proofs: rounding and `TwoDec` -/

lemma bankRound_intCast (n : ℤ) : bankRound (n : ℚ) = n := by
  rw [bankRound, Int.fract_intCast]
  norm_num

lemma TwoDec.round2_eq {q : ℚ} (h : TwoDec q) : round2 q = q := by
  obtain ⟨n, rfl⟩ := h
  have h100 : ((n : ℚ) / 100) * 100 = (n : ℚ) := by ring
  rw [round2, h100, bankRound_intCast]

lemma TwoDec.add {q r : ℚ} (hq : TwoDec q) (hr : TwoDec r) : TwoDec (q + r) := by
  obtain ⟨m, rfl⟩ := hq; obtain ⟨n, rfl⟩ := hr
  exact ⟨m + n, by push_cast; ring⟩

lemma TwoDec.sub {q r : ℚ} (hq : TwoDec q) (hr : TwoDec r) : TwoDec (q - r) := by
  obtain ⟨m, rfl⟩ := hq; obtain ⟨n, rfl⟩ := hr
  exact ⟨m - n, by push_cast; ring⟩

lemma TwoDec.zero : TwoDec (0 : ℚ) := ⟨0, by norm_num⟩

lemma TwoDec.listSum {l : List ℚ} (h : ∀ q ∈ l, TwoDec q) : TwoDec l.sum := by
  induction l with
  | nil => simpa using TwoDec.zero
  | cons a l ih =>
      rw [List.sum_cons]
      exact (h a (by simp)).add (ih fun q hq => h q (by simp [hq]))

lemma pyInt_mono {q r : ℚ} (h : q ≤ r) : pyInt q ≤ pyInt r := by
  unfold pyInt
  by_cases hq : 0 ≤ q
  · rw [if_pos hq, if_pos (le_trans hq h)]
    exact Int.floor_le_floor h
  · rw [if_neg hq]
    by_cases hr : 0 ≤ r
    · rw [if_pos hr]
      calc ⌈q⌉ ≤ ⌈(0 : ℚ)⌉ := Int.ceil_le_ceil (le_of_not_le hq)
        _ = 0 := by norm_num
        _ ≤ ⌊r⌋ := Int.le_floor.mpr (by exact_mod_cast hr)
    · rw [if_neg hr]
      exact Int.ceil_le_ceil h

/-! ## Proofs: balance calculator -/

lemma recalcAux_length (ts : List Transaction) (r c d : ℚ) :
    (recalcAux r c d ts).1.length = ts.length := by
  induction ts generalizing r c d with
  | nil => rfl
  | cons t ts ih => simp [recalcAux, ih]

lemma recalcAux_running (ts : List Transaction) (r c d : ℚ) :
    (recalcAux r c d ts).2.1 = r + (ts.map fun t => t.credit - t.debit).sum := by
  induction ts generalizing r c d with
  | nil => simp [recalcAux]
  | cons t ts ih => simp [recalcAux, ih]; ring

lemma recalcAux_totc (ts : List Transaction) (r c d : ℚ) :
    (recalcAux r c d ts).2.2.1 = c + (ts.map Transaction.credit).sum := by
  induction ts generalizing r c d with
  | nil => simp [recalcAux]
  | cons t ts ih => simp [recalcAux, ih]; ring

lemma recalcAux_totd (ts : List Transaction) (r c d : ℚ) :
    (recalcAux r c d ts).2.2.2 = d + (ts.map Transaction.debit).sum := by
  induction ts generalizing r c d with
  | nil => simp [recalcAux]
  | cons t ts ih => simp [recalcAux, ih]; ring

lemma recalcAux_get (ts : List Transaction) (r c d : ℚ) (i : ℕ)
    (h : i < (recalcAux r c d ts).1.length) (h2 : i < ts.length) :
    (recalcAux r c d ts).1.get ⟨i, h⟩ =
      { ts.get ⟨i, h2⟩ with
        balance := round2 (r + ((ts.take (i+1)).map fun t => t.credit - t.debit).sum) } := by
  induction ts generalizing r c d i with
  | nil => simp at h2
  | cons t ts ih =>
      cases i with
      | zero => simp [recalcAux]; ring_nf
      | succ j =>
          have hj2 : j < ts.length := by simpa using h2
          have hj : j < (recalcAux (r + t.credit - t.debit) (c + t.credit) (d + t.debit) ts).1.length := by
            rw [recalcAux_length]; exact hj2
          have hstep : (recalcAux r c d (t :: ts)).1.get ⟨j+1, h⟩
              = (recalcAux (r + t.credit - t.debit) (c + t.credit) (d + t.debit) ts).1.get ⟨j, hj⟩ := rfl
          rw [hstep, ih _ _ _ j hj hj2]
          have harg : r + t.credit - t.debit + ((ts.take (j+1)).map fun x => x.credit - x.debit).sum
              = r + (((t :: ts).take (j+1+1)).map fun x => x.credit - x.debit).sum := by
            rw [List.take_succ_cons, List.map_cons, List.sum_cons]; ring
          rw [harg]
          rfl

lemma sum_map_sub (ts : List Transaction) :
    (ts.map fun t => t.credit - t.debit).sum
      = (ts.map Transaction.credit).sum - (ts.map Transaction.debit).sum := by
  induction ts with
  | nil => simp
  | cons t ts ih => simp [ih]; ring

lemma recalculate_length (s : BankStatement) :
    (recalculate s).transactions.length = s.transactions.length :=
  recalcAux_length s.transactions s.opening_balance 0 0

lemma recalculate_get (s : BankStatement) (i : ℕ)
    (h : i < (recalculate s).transactions.length) (h2 : i < s.transactions.length) :
    (recalculate s).transactions.get ⟨i, h⟩ =
      { s.transactions.get ⟨i, h2⟩ with
        balance := round2 (s.opening_balance
          + ((s.transactions.take (i+1)).map fun t => t.credit - t.debit).sum) } :=
  recalcAux_get s.transactions s.opening_balance 0 0 i h h2

lemma recalculate_total_credits (s : BankStatement) :
    (recalculate s).total_credits = round2 (s.transactions.map Transaction.credit).sum := by
  show round2 (recalcAux s.opening_balance 0 0 s.transactions).2.2.1 = _
  rw [recalcAux_totc, zero_add]

lemma recalculate_total_debits (s : BankStatement) :
    (recalculate s).total_debits = round2 (s.transactions.map Transaction.debit).sum := by
  show round2 (recalcAux s.opening_balance 0 0 s.transactions).2.2.2 = _
  rw [recalcAux_totd, zero_add]

lemma recalculate_closing (s : BankStatement) :
    (recalculate s).closing_balance
      = round2 (s.opening_balance + (s.transactions.map fun t => t.credit - t.debit).sum) := by
  show round2 (recalcAux s.opening_balance 0 0 s.transactions).2.1 = _
  rw [recalcAux_running]

lemma prefix_sum_succ (ts : List Transaction) (i : ℕ) (hi : i < ts.length) :
    ((ts.take (i+1)).map fun t => t.credit - t.debit).sum
      = ((ts.take i).map fun t => t.credit - t.debit).sum
          + ((ts.get ⟨i, hi⟩).credit - (ts.get ⟨i, hi⟩).debit) := by
  rw [List.map_take, List.map_take, List.sum_take_succ _ i (by simpa using hi)]
  simp [List.getElem_map]

/-- C1: after `BalanceCalculator.recalculate`, on a statement whose opening
balance and transaction amounts are two-decimal values (as the
`Transaction` model's `round_amounts` validator and the extractor's
rounding guarantee), the closing balance equals
`opening_balance + total_credits - total_debits` to two decimal places,
the totals are `round(Σ credit, 2)` and `round(Σ debit, 2)`, every
transaction's balance equals `round(opening + Σ_{j ≤ i}(credit - debit), 2)`,
and every balance equals the previous balance (the opening balance for
index 0) plus that transaction's credit minus its debit. -/
theorem C1_recalculate_invariants (s : BankStatement)
    (hb : TwoDec s.opening_balance)
    (hcd : ∀ t ∈ s.transactions, TwoDec t.credit ∧ TwoDec t.debit) :
    ((recalculate s).transactions.length = s.transactions.length)
    ∧ ((recalculate s).closing_balance
        = round2 (s.opening_balance + (recalculate s).total_credits
            - (recalculate s).total_debits))
    ∧ ((recalculate s).total_credits = round2 (s.transactions.map Transaction.credit).sum)
    ∧ ((recalculate s).total_debits = round2 (s.transactions.map Transaction.debit).sum)
    ∧ (∀ i (h : i < (recalculate s).transactions.length),
        ((recalculate s).transactions.get ⟨i, h⟩).balance
          = round2 (s.opening_balance
              + ((s.transactions.take (i+1)).map fun t => t.credit - t.debit).sum))
    ∧ (∀ h0 : 0 < (recalculate s).transactions.length,
        ((recalculate s).transactions.get ⟨0, h0⟩).balance
          = s.opening_balance + ((recalculate s).transactions.get ⟨0, h0⟩).credit
              - ((recalculate s).transactions.get ⟨0, h0⟩).debit)
    ∧ (∀ i (h : i + 1 < (recalculate s).transactions.length),
        ((recalculate s).transactions.get ⟨i+1, h⟩).balance
          = ((recalculate s).transactions.get ⟨i, Nat.lt_of_succ_lt h⟩).balance
              + ((recalculate s).transactions.get ⟨i+1, h⟩).credit
              - ((recalculate s).transactions.get ⟨i+1, h⟩).debit) := by
  have hSc : TwoDec (s.transactions.map Transaction.credit).sum := by
    apply TwoDec.listSum; intro q hq
    obtain ⟨t, ht, rfl⟩ := List.mem_map.mp hq
    exact (hcd t ht).1
  have hSd : TwoDec (s.transactions.map Transaction.debit).sum := by
    apply TwoDec.listSum; intro q hq
    obtain ⟨t, ht, rfl⟩ := List.mem_map.mp hq
    exact (hcd t ht).2
  have hTD : ∀ i, TwoDec ((s.transactions.take i).map fun t => t.credit - t.debit).sum := by
    intro i; apply TwoDec.listSum; intro q hq
    obtain ⟨t, ht, rfl⟩ := List.mem_map.mp hq
    have ht' : t ∈ s.transactions := List.take_subset i s.transactions ht
    exact ((hcd t ht').1).sub ((hcd t ht').2)
  refine ⟨recalculate_length s, ?_, recalculate_total_credits s,
      recalculate_total_debits s, ?_, ?_, ?_⟩
  · rw [recalculate_closing, recalculate_total_credits, recalculate_total_debits,
        hSc.round2_eq, hSd.round2_eq, sum_map_sub]
    ring_nf
  · intro i h
    rw [recalculate_get s i h ((recalculate_length s) ▸ h)]
  · intro h0
    have h2 : 0 < s.transactions.length := (recalculate_length s) ▸ h0
    rw [recalculate_get s 0 h0 h2]
    show round2 (s.opening_balance + ((s.transactions.take 1).map fun t => t.credit - t.debit).sum)
        = s.opening_balance + (s.transactions.get ⟨0, h2⟩).credit - (s.transactions.get ⟨0, h2⟩).debit
    rw [prefix_sum_succ s.transactions 0 h2]
    have hTDall : TwoDec (s.opening_balance
        + (((s.transactions.take 0).map fun t => t.credit - t.debit).sum
            + ((s.transactions.get ⟨0, h2⟩).credit - (s.transactions.get ⟨0, h2⟩).debit))) :=
      hb.add ((hTD 0).add (((hcd _ (s.transactions.get_mem 0 h2)).1).sub
        ((hcd _ (s.transactions.get_mem 0 h2)).2)))
    rw [hTDall.round2_eq]
    simp
    ring
  · intro i h
    have h2 : i + 1 < s.transactions.length := (recalculate_length s) ▸ h
    have h2' : i < s.transactions.length := Nat.lt_of_succ_lt h2
    rw [recalculate_get s (i+1) h h2, recalculate_get s i (Nat.lt_of_succ_lt h) h2']
    show round2 (s.opening_balance
          + ((s.transactions.take (i+1+1)).map fun t => t.credit - t.debit).sum)
        = round2 (s.opening_balance
          + ((s.transactions.take (i+1)).map fun t => t.credit - t.debit).sum)
          + (s.transactions.get ⟨i+1, h2⟩).credit - (s.transactions.get ⟨i+1, h2⟩).debit
    have hmem := s.transactions.get_mem (i+1) h2
    have hA : TwoDec (s.opening_balance
        + ((s.transactions.take (i+1)).map fun t => t.credit - t.debit).sum) :=
      hb.add (hTD (i+1))
    have hB : TwoDec (s.opening_balance
        + ((s.transactions.take (i+1+1)).map fun t => t.credit - t.debit).sum) :=
      hb.add (hTD (i+1+1))
    rw [hA.round2_eq, hB.round2_eq, prefix_sum_succ s.transactions (i+1) h2]
    ring

/-- C1 witness: the invariants instantiated on a concrete statement
(opening balance 1000, credit 1000 then debit 200). -/
theorem C1_witness :
    TwoDec exStmt.opening_balance
    ∧ (recalculate exStmt).closing_balance
        = round2 (exStmt.opening_balance + (recalculate exStmt).total_credits
            - (recalculate exStmt).total_debits) := by
  have hb : TwoDec exStmt.opening_balance := ⟨100000, by norm_num [exStmt]⟩
  have hcd : ∀ t ∈ exStmt.transactions, TwoDec t.credit ∧ TwoDec t.debit := by
    intro t ht
    simp only [exStmt, exTxn1, exTxn2, List.mem_cons, List.not_mem_nil, or_false] at ht
    rcases ht with rfl | rfl
    · exact ⟨⟨100000, by norm_num⟩, ⟨0, by norm_num⟩⟩
    · exact ⟨⟨0, by norm_num⟩, ⟨20000, by norm_num⟩⟩
  exact ⟨hb, (C1_recalculate_invariants exStmt hb hcd).2.1⟩

lemma recalcAux_congr {ts₁ ts₂ : List Transaction}
    (h : ts₁.map scrubTxn = ts₂.map scrubTxn) (r c d : ℚ) :
    recalcAux r c d ts₁ = recalcAux r c d ts₂ := by
  induction ts₁ generalizing ts₂ r c d with
  | nil => cases ts₂ with
      | nil => rfl
      | cons u us => simp at h
  | cons t ts ih =>
      cases ts₂ with
      | nil => simp at h
      | cons u us =>
          simp only [List.map_cons, List.cons.injEq] at h
          obtain ⟨h1, h2⟩ := h
          cases t; cases u
          simp only [scrubTxn, Transaction.mk.injEq] at h1
          obtain ⟨hd, hde, hc, hdb, -, hr, ho⟩ := h1
          subst hd; subst hde; subst hc; subst hdb; subst hr; subst ho
          simp only [recalcAux]
          rw [ih h2]

lemma recalcAux_scrub (ts : List Transaction) (r c d : ℚ) :
    (recalcAux r c d ts).1.map scrubTxn = ts.map scrubTxn := by
  induction ts generalizing r c d with
  | nil => rfl
  | cons t ts ih =>
      simp only [recalcAux, List.map_cons, ih]
      rfl

lemma recalculate_scrub_congr {s₁ s₂ : BankStatement}
    (h : scrubStatement s₁ = scrubStatement s₂) : recalculate s₁ = recalculate s₂ := by
  cases s₁ with | mk h1 tx1 ob1 cb1 tc1 td1 =>
  cases s₂ with | mk h2 tx2 ob2 cb2 tc2 td2 =>
  simp only [scrubStatement, BankStatement.mk.injEq, and_true] at h
  obtain ⟨hh, htx, hob⟩ := h
  subst hh; subst hob
  simp only [recalculate]
  rw [recalcAux_congr htx]

lemma scrub_recalculate (s : BankStatement) :
    scrubStatement (recalculate s) = scrubStatement s := by
  cases s with | mk h1 tx1 ob1 cb1 tc1 td1 =>
  simp [scrubStatement, recalculate, recalcAux_scrub]

/-- C2: `BalanceCalculator.recalculate` is idempotent, and its output is a
function only of the data it does not itself write — any two statements
that agree after forgetting the per-transaction balances, the totals and
the closing balance recalculate to identical statements. -/
theorem C2_recalculate_idempotent_pure :
    (∀ s : BankStatement, recalculate (recalculate s) = recalculate s)
    ∧ (∀ s₁ s₂ : BankStatement,
        scrubStatement s₁ = scrubStatement s₂ → recalculate s₁ = recalculate s₂) :=
  ⟨fun s => recalculate_scrub_congr (scrub_recalculate s),
   fun _ _ h => recalculate_scrub_congr h⟩

/-- C2 witness: idempotence on a concrete statement, and insensitivity to
stale balances/totals on a concrete pair differing only in those fields. -/
theorem C2_witness :
    recalculate (recalculate exStmt) = recalculate exStmt
    ∧ recalculate exStmtStale = recalculate exStmt :=
  ⟨C2_recalculate_idempotent_pure.1 exStmt,
   C2_recalculate_idempotent_pure.2 exStmtStale exStmt (by decide)⟩

/-! ## Proofs: date sequencer -/

lemma forall₂_shape_map (f : Transaction → Transaction)
    (hf : ∀ t, ∃ d, f t = { t with date := d }) (l : List Transaction) :
    List.Forall₂ (fun a b => ∃ d, b = { a with date := d }) l (l.map f) := by
  induction l with
  | nil => exact List.Forall₂.nil
  | cons t l ih => exact List.Forall₂.cons (hf t) ih

lemma forall₂_shape_mapWithIdx (f : ℕ → Transaction → Transaction)
    (hf : ∀ i t, ∃ d, f i t = { t with date := d }) :
    ∀ (l : List Transaction) (k : ℕ),
      List.Forall₂ (fun a b => ∃ d, b = { a with date := d }) l (mapWithIdx f k l) := by
  intro l
  induction l with
  | nil => intro k; exact List.Forall₂.nil
  | cons t l ih => intro k; exact List.Forall₂.cons (hf k t) (ih (k + 1))

lemma uniformDistribution_forall₂ (ts : List Transaction) (sd ed : ℤ) :
    List.Forall₂ (fun a b => ∃ d, b = { a with date := d })
      ts (uniformDistribution ts sd ed) := by
  by_cases hl : ts.length = 1
  · rw [uniformDistribution, if_pos hl]
    exact forall₂_shape_map _ (fun t => ⟨sd, rfl⟩) ts
  · rw [uniformDistribution, if_neg hl]
    exact forall₂_shape_mapWithIdx _ (fun i t => ⟨_, rfl⟩) ts 0

lemma preserveSpacing_forall₂ (ts : List Transaction) (sd ed : ℤ) :
    List.Forall₂ (fun a b => ∃ d, b = { a with date := d })
      ts (preserveSpacing ts sd ed) := by
  by_cases h1 : (ts.map Transaction.date).dedup.length = 1
  · rw [preserveSpacing, if_pos h1]
    exact uniformDistribution_forall₂ ts sd ed
  · rw [preserveSpacing, if_neg h1]
    by_cases h2 : maxDate (ts.map Transaction.date) - minDate (ts.map Transaction.date) = 0
    · rw [if_pos h2]
      exact uniformDistribution_forall₂ ts sd ed
    · rw [if_neg h2]
      exact forall₂_shape_map _ (fun t => ⟨_, rfl⟩) ts

lemma sequence_dates_forall₂ (ts : List Transaction) (sd ed : ℤ) (method : String) :
    List.Forall₂ (fun a b => ∃ d, b = { a with date := d, original_date := some a.date })
      ts (sequence_dates ts sd ed method) := by
  by_cases hts : ts.isEmpty
  · have : ts = [] := List.isEmpty_iff.mp hts
    subst this
    simp [sequence_dates]
  · rw [sequence_dates, if_neg hts]
    have halg : List.Forall₂ (fun a b => ∃ d, b = { a with date := d })
        (setOriginalDates ts)
        (if method = "preserve_spacing" then preserveSpacing (setOriginalDates ts) sd ed
         else uniformDistribution (setOriginalDates ts) sd ed) := by
      by_cases hm : method = "preserve_spacing"
      · rw [if_pos hm]; exact preserveSpacing_forall₂ _ sd ed
      · rw [if_neg hm]; exact uniformDistribution_forall₂ _ sd ed
    rw [setOriginalDates, List.forall₂_map_left_iff] at halg
    refine halg.imp ?_
    rintro a b ⟨d, rfl⟩
    exact ⟨d, rfl⟩

/-- C3: `sequence_dates` preserves the number and relative order of the
transactions — the i-th output transaction is the i-th input transaction
with only its `date` and `original_date` rewritten — and every output
transaction's `original_date` is the date it carried before the call. -/
theorem C3_sequence_preserves_order_and_original_dates
    (ts : List Transaction) (sd ed : ℤ) (method : String) (hw : sd ≤ ed) :
    ((sequence_dates ts sd ed method).length = ts.length)
    ∧ ∀ i (h : i < (sequence_dates ts sd ed method).length) (h2 : i < ts.length),
        ((sequence_dates ts sd ed method).get ⟨i, h⟩).description
            = (ts.get ⟨i, h2⟩).description
        ∧ ((sequence_dates ts sd ed method).get ⟨i, h⟩).credit = (ts.get ⟨i, h2⟩).credit
        ∧ ((sequence_dates ts sd ed method).get ⟨i, h⟩).debit = (ts.get ⟨i, h2⟩).debit
        ∧ ((sequence_dates ts sd ed method).get ⟨i, h⟩).balance = (ts.get ⟨i, h2⟩).balance
        ∧ ((sequence_dates ts sd ed method).get ⟨i, h⟩).ref = (ts.get ⟨i, h2⟩).ref
        ∧ ((sequence_dates ts sd ed method).get ⟨i, h⟩).original_date
            = some (ts.get ⟨i, h2⟩).date := by
  have hf := sequence_dates_forall₂ ts sd ed method
  refine ⟨hf.length_eq.symm, ?_⟩
  intro i h h2
  obtain ⟨d, hd⟩ := hf.get h2 h
  rw [hd]
  exact ⟨rfl, rfl, rfl, rfl, rfl, rfl⟩

/-- C3 witness: instantiated on two concrete transactions and the window
`[0, 4]` with the default method. -/
theorem C3_witness :
    (0 : ℤ) ≤ 4
    ∧ (sequence_dates exRevTxns 0 4 "preserve_spacing").length = exRevTxns.length := by
  refine ⟨by norm_num, ?_⟩
  exact (C3_sequence_preserves_order_and_original_dates exRevTxns 0 4 "preserve_spacing"
    (by norm_num)).1

lemma chain'_mapWithIdx (f : ℕ → Transaction → Transaction)
    (hf : ∀ k t t', (f k t).date ≤ (f (k+1) t').date) :
    ∀ (l : List Transaction) (k : ℕ),
      List.Chain' (fun a b => a.date ≤ b.date) (mapWithIdx f k l) := by
  intro l
  induction l with
  | nil => intro k; exact List.chain'_nil
  | cons t l ih =>
      intro k
      cases l with
      | nil => exact List.chain'_singleton _
      | cons u l' =>
          rw [mapWithIdx, mapWithIdx, List.chain'_cons]
          exact ⟨hf k t u, by rw [← mapWithIdx]; exact ih (k + 1)⟩

lemma chain'_uniform (ts : List Transaction) (sd ed : ℤ) (hw : sd ≤ ed) :
    List.Chain' (fun a b => a.date ≤ b.date) (uniformDistribution ts sd ed) := by
  by_cases hl : ts.length = 1
  · rw [uniformDistribution, if_pos hl]
    obtain ⟨t, rfl⟩ := List.length_eq_one.mp hl
    exact List.chain'_singleton _
  · rw [uniformDistribution, if_neg hl]
    rcases Nat.lt_or_ge ts.length 2 with h2 | h2
    · have h0 : ts.length = 0 := by omega
      rw [List.length_eq_zero.mp h0]
      exact List.chain'_nil
    · have hiv : 0 ≤ ((ed - sd : ℤ) : ℚ) / ((ts.length : ℚ) - 1) := by
        apply div_nonneg
        · exact_mod_cast sub_nonneg.mpr hw
        · have : (2 : ℚ) ≤ (ts.length : ℚ) := by exact_mod_cast h2
          linarith
      apply chain'_mapWithIdx
      intro k t t'
      simp only
      have hk : ((k : ℚ)) * (((ed - sd : ℤ) : ℚ) / ((ts.length : ℚ) - 1))
          ≤ ((k + 1 : ℕ) : ℚ) * (((ed - sd : ℤ) : ℚ) / ((ts.length : ℚ) - 1)) := by
        apply mul_le_mul_of_nonneg_right _ hiv
        exact_mod_cast Nat.le_succ k
      exact add_le_add_left (pyInt_mono hk) sd

lemma minDate_le_maxDate (l : List ℤ) : minDate l ≤ maxDate l := by
  have h1 : ∀ (m : List ℤ) (a : ℤ), m.foldl min a ≤ a := by
    intro m
    induction m with
    | nil => intro a; exact le_refl a
    | cons x m ih =>
        intro a
        calc (x :: m).foldl min a = m.foldl min (min a x) := rfl
          _ ≤ min a x := ih (min a x)
          _ ≤ a := min_le_left a x
  have h2 : ∀ (m : List ℤ) (a : ℤ), a ≤ m.foldl max a := by
    intro m
    induction m with
    | nil => intro a; exact le_refl a
    | cons x m ih =>
        intro a
        calc a ≤ max a x := le_max_left a x
          _ ≤ m.foldl max (max a x) := ih (max a x)
          _ = (x :: m).foldl max a := rfl
  exact le_trans (h1 l (l.headD 0)) (h2 l (l.headD 0))

lemma chain'_preserve_sorted (ts : List Transaction) (sd ed : ℤ) (hw : sd ≤ ed)
    (hsort : List.Chain' (fun a b => a.date ≤ b.date) ts) :
    List.Chain' (fun a b => a.date ≤ b.date) (preserveSpacing ts sd ed) := by
  by_cases h1 : (ts.map Transaction.date).dedup.length = 1
  · rw [preserveSpacing, if_pos h1]
    exact chain'_uniform ts sd ed hw
  · rw [preserveSpacing, if_neg h1]
    by_cases h2 : maxDate (ts.map Transaction.date) - minDate (ts.map Transaction.date) = 0
    · rw [if_pos h2]
      exact chain'_uniform ts sd ed hw
    · rw [if_neg h2]
      have horig : (0 : ℤ) < maxDate (ts.map Transaction.date) - minDate (ts.map Transaction.date) :=
        lt_of_le_of_ne (sub_nonneg.mpr (minDate_le_maxDate _)) (Ne.symm h2)
      have hscale : 0 ≤ ((ed - sd : ℤ) : ℚ)
          / ((maxDate (ts.map Transaction.date) - minDate (ts.map Transaction.date) : ℤ) : ℚ) := by
        apply div_nonneg
        · exact_mod_cast sub_nonneg.mpr hw
        · exact_mod_cast le_of_lt horig
      apply List.chain'_map_of_chain' _ _ hsort
      intro a b hab
      simp only
      apply add_le_add_left _ sd
      apply pyInt_mono
      apply mul_le_mul_of_nonneg_right _ hscale
      exact_mod_cast sub_le_sub_right hab _

unseal Rat.add Rat.mul Rat.inv Rat.sub in
lemma preserve_spacing_reversed_eval :
    (sequence_dates exRevTxns 0 4 "preserve_spacing").map Transaction.date = [4, 0] := by
  decide

/-- C4 counterexample: with transactions in reverse chronological order
(day 4 then day 0) and window `[0, 4]`, the proportional-spacing method
assigns dates `[4, 0]` — the second transaction in the list ends up
earlier in time, so the claim that assigned dates are non-decreasing with
list position for arbitrary input orderings is false. -/
theorem C4_counterexample :
    (0 : ℤ) ≤ 4
    ∧ (sequence_dates exRevTxns 0 4 "preserve_spacing").map Transaction.date = [4, 0]
    ∧ ¬ List.Chain' (· ≤ ·)
        ((sequence_dates exRevTxns 0 4 "preserve_spacing").map Transaction.date) := by
  refine ⟨by norm_num, preserve_spacing_reversed_eval, ?_⟩
  intro hchain
  rw [preserve_spacing_reversed_eval] at hchain
  have h40 : (4 : ℤ) ≤ 0 := (List.chain'_cons.mp hchain).1
  norm_num at h40

/-- C4 (amended): the dates assigned by `sequence_dates` are non-decreasing
with list position whenever the method is the uniform distribution, or the
input dates are themselves non-decreasing; the unrestricted claim fails for
`preserve_spacing` on non-chronological input (see the counterexample). -/
theorem C4_amended_dates_monotone (ts : List Transaction) (sd ed : ℤ) (method : String)
    (hw : sd ≤ ed)
    (hm : method ≠ "preserve_spacing" ∨ List.Chain' (· ≤ ·) (ts.map Transaction.date)) :
    List.Chain' (· ≤ ·) ((sequence_dates ts sd ed method).map Transaction.date) := by
  by_cases hts : ts.isEmpty
  · have : ts = [] := List.isEmpty_iff.mp hts
    subst this
    simp [sequence_dates]
  · rw [sequence_dates, if_neg hts, List.chain'_map]
    by_cases hmeth : method = "preserve_spacing"
    · rw [if_pos hmeth]
      apply chain'_preserve_sorted _ sd ed hw
      rcases hm with hm | hm
      · exact absurd hmeth hm
      · have hts' : List.Chain' (fun a b : Transaction => a.date ≤ b.date) ts :=
          (List.chain'_map Transaction.date).mp hm
        rw [setOriginalDates]
        refine List.chain'_map_of_chain' _ ?_ hts'
        intro a b hab
        exact hab
    · rw [if_neg hmeth]
      exact chain'_uniform _ sd ed hw

/-- C4 witness: monotone output dates on a concrete non-chronological input
under the uniform-distribution method. -/
theorem C4_witness :
    List.Chain' (· ≤ ·) ((sequence_dates exRevTxns 0 4 "uniform").map Transaction.date) :=
  C4_amended_dates_monotone exRevTxns 0 4 "uniform" (by norm_num) (Or.inl (by decide))

lemma dedup_const {l : List ℤ} {d : ℤ} (hne : l ≠ []) (hall : ∀ x ∈ l, x = d) :
    l.dedup = [d] := by
  induction l with
  | nil => exact absurd rfl hne
  | cons a l ih =>
      have ha : a = d := hall a (by simp)
      subst ha
      cases l with
      | nil => simp
      | cons b l' =>
          have htl := ih (by simp) (fun x hx => hall x (by simp [hx]))
          have hmem : a ∈ (b :: l').dedup := by
            rw [htl, hall a (by simp)]
            simp
          rw [List.dedup_cons_of_mem' hmem, htl]

/-- C5: on a non-empty transaction list whose dates are all identical,
`sequence_dates` with the proportional-spacing method produces exactly the
same list as with the uniform-distribution method on the same window
(the `len(set(original_dates)) == 1` check falls back to uniform). -/
theorem C5_preserve_eq_uniform_on_equal_dates (ts : List Transaction) (sd ed : ℤ)
    (hne : ts ≠ []) (d0 : ℤ) (hall : ∀ t ∈ ts, t.date = d0) (hw : sd ≤ ed) :
    sequence_dates ts sd ed "preserve_spacing" = sequence_dates ts sd ed "uniform" := by
  have hts : ¬ ts.isEmpty = true := by
    simpa [List.isEmpty_iff] using hne
  rw [sequence_dates, sequence_dates, if_neg hts, if_neg hts, if_pos rfl,
      if_neg (by decide : ¬ ("uniform" = "preserve_spacing"))]
  have hdates : (setOriginalDates ts).map Transaction.date = ts.map Transaction.date := by
    rw [setOriginalDates, List.map_map]
    rfl
  have hne' : (setOriginalDates ts).map Transaction.date ≠ [] := by
    rw [hdates]
    simpa using hne
  have hall' : ∀ x ∈ (setOriginalDates ts).map Transaction.date, x = d0 := by
    rw [hdates]
    intro x hx
    obtain ⟨t, ht, rfl⟩ := List.mem_map.mp hx
    exact hall t ht
  have hded : ((setOriginalDates ts).map Transaction.date).dedup = [d0] :=
    dedup_const hne' hall'
  rw [preserveSpacing, if_pos (by rw [hded]; rfl)]

/-- C5 witness: two concrete transactions sharing date 5, window `[0, 4]`. -/
theorem C5_witness :
    sequence_dates exSameDateTxns 0 4 "preserve_spacing"
      = sequence_dates exSameDateTxns 0 4 "uniform" :=
  C5_preserve_eq_uniform_on_equal_dates exSameDateTxns 0 4 (by decide) 5 (by decide)
    (by norm_num)

/-! ## Proofs: offline extractor -/

/-- C6: per matched row, the emitted credit/debit come from the
disambiguation rule, and the rule assigns the sole non-zero token (first →
credit, second → debit), zeroes when both tokens are zero or absent, and —
the fall-through branch — zeroes both fields when both tokens are
simultaneously non-zero. -/
theorem C6_credit_debit_disambiguation (a1 a2 : ℚ) :
    (∀ m : TxnMatch,
        (rowOfMatch m).credit
            = creditRule (pyParseAmount m.amount1) (pyParseAmount m.amount2)
        ∧ (rowOfMatch m).debit
            = debitRule (pyParseAmount m.amount1) (pyParseAmount m.amount2))
    ∧ ((a1 ≠ 0 ∧ a2 = 0) → creditRule a1 a2 = a1 ∧ debitRule a1 a2 = 0)
    ∧ ((a2 ≠ 0 ∧ a1 = 0) → creditRule a1 a2 = 0 ∧ debitRule a1 a2 = a2)
    ∧ ((a1 = 0 ∧ a2 = 0) → creditRule a1 a2 = 0 ∧ debitRule a1 a2 = 0)
    ∧ ((a1 ≠ 0 ∧ a2 ≠ 0) → creditRule a1 a2 = 0 ∧ debitRule a1 a2 = 0) := by
  refine ⟨fun m => ⟨rfl, rfl⟩, ?_, ?_, ?_, ?_⟩ <;> rintro ⟨h1, h2⟩ <;>
    constructor <;> simp [creditRule, debitRule, h1, h2]

/-- C6 witness: the four disambiguation cases at concrete token values. -/
theorem C6_witness :
    creditRule 5 0 = 5 ∧ debitRule 5 0 = 0
    ∧ creditRule 0 7 = 0 ∧ debitRule 0 7 = 7
    ∧ creditRule 0 0 = 0 ∧ debitRule 0 0 = 0
    ∧ creditRule 3 4 = 0 ∧ debitRule 3 4 = 0 := by
  have h1 := (C6_credit_debit_disambiguation 5 0).2.1 ⟨by norm_num, rfl⟩
  have h2 := (C6_credit_debit_disambiguation 0 7).2.2.1 ⟨by norm_num, rfl⟩
  have h3 := (C6_credit_debit_disambiguation 0 0).2.2.2.1 ⟨rfl, rfl⟩
  have h4 := (C6_credit_debit_disambiguation 3 4).2.2.2.2 ⟨by norm_num, by norm_num⟩
  exact ⟨h1.1, h1.2, h2.1, h2.2, h3.1, h3.2, h4.1, h4.2⟩

lemma takeWhile_append_of_all {p : Char → Bool} {l1 : List Char}
    (h : ∀ c ∈ l1, p c = true) (l2 : List Char) :
    (l1 ++ l2).takeWhile p = l1 ++ l2.takeWhile p := by
  induction l1 with
  | nil => simp
  | cons c l ih =>
      simp [List.takeWhile_cons, h c (by simp), ih fun x hx => h x (by simp [hx])]

lemma dropWhile_append_of_all {p : Char → Bool} {l1 : List Char}
    (h : ∀ c ∈ l1, p c = true) (l2 : List Char) :
    (l1 ++ l2).dropWhile p = l2.dropWhile p := by
  induction l1 with
  | nil => simp
  | cons c l ih =>
      simp [List.dropWhile_cons, h c (by simp), ih fun x hx => h x (by simp [hx])]

lemma digitChar_facts {c : Char} (hc : c ∈ digitChars) :
    isDigitC c = true ∧ isStrippedChar c = false ∧ c ≠ '+' ∧ c ≠ '-' ∧ c ≠ '.' := by
  simp only [digitChars, List.mem_cons, List.not_mem_nil, or_false] at hc
  rcases hc with rfl | rfl | rfl | rfl | rfl | rfl | rfl | rfl | rfl | rfl <;> decide

lemma euro_parse_eval : pyParseAmount (some "€100") = 0 := by decide

/-- C7 counterexample: `_parse_amount` strips only `₹`, `$`, commas and
whitespace — not every non-digit character — so the euro-prefixed token
`"€100"` fails `float()` and yields 0.0 instead of 100. -/
theorem C7_counterexample :
    pyParseAmount (some "€100") = 0 ∧ (0 : ℚ) ≠ 100 :=
  ⟨euro_parse_eval, by norm_num⟩

/-- C7 (amended): `_parse_amount` strips whitespace, commas and the two
currency symbols `₹` and `$` (only), never raises, and parses any
`₹`/`$`-prefixed decimal-digit token — with or without a fraction part —
to its numeric value rounded to 2 decimals; tokens that still fail to
parse (such as other currency symbols) yield 0.0 (see the counterexample). -/
theorem C7_amended_parse_amount (sym : Char) (hsym : sym = '₹' ∨ sym = '$')
    (intDs fracDs : List Char) (hne : intDs ≠ [])
    (hd1 : ∀ c ∈ intDs, c ∈ digitChars) (hd2 : ∀ c ∈ fracDs, c ∈ digitChars) :
    pyParseAmount (some (String.mk (sym :: (intDs ++ '.' :: fracDs))))
      = round2 ((digitsVal intDs : ℚ)
          + (digitsVal fracDs : ℚ) / (10 : ℚ) ^ fracDs.length)
    ∧ pyParseAmount (some (String.mk (sym :: intDs)))
      = round2 (digitsVal intDs : ℚ) := by
  obtain ⟨c0, intTl, rfl⟩ := List.exists_cons_of_ne_nil hne
  have hsymStrip : isStrippedChar sym = true := by
    rcases hsym with rfl | rfl <;> decide
  have hDigAll : ∀ c ∈ c0 :: intTl, isDigitC c = true :=
    fun c hc => (digitChar_facts (hd1 c hc)).1
  have hFracAll : ∀ c ∈ fracDs, isDigitC c = true :=
    fun c hc => (digitChar_facts (hd2 c hc)).1
  have hdotD : isDigitC '.' = false := by decide
  have hc0 := digitChar_facts (hd1 c0 (by simp))
  have hmkne : ∀ L : List Char, String.mk (sym :: L) ≠ "" := by
    intro L h
    have hd := congrArg String.data h
    simp at hd
  have hkeepInt : ∀ c ∈ c0 :: intTl, (!isStrippedChar c) = true := by
    intro c hc
    simp [(digitChar_facts (hd1 c hc)).2.1]
  have hkeepFrac : ∀ c ∈ '.' :: fracDs, (!isStrippedChar c) = true := by
    intro c hc
    rcases List.mem_cons.mp hc with rfl | hc
    · decide
    · simp [(digitChar_facts (hd2 c hc)).2.1]
  constructor
  · -- with fraction part
    have hclean : cleanAmount (String.mk (sym :: ((c0 :: intTl) ++ '.' :: fracDs)))
        = String.mk ((c0 :: intTl) ++ '.' :: fracDs) := by
      show String.mk (((sym :: ((c0 :: intTl) ++ '.' :: fracDs))).filter
        fun c => !isStrippedChar c) = _
      congr 1
      rw [List.filter_cons]
      simp only [hsymStrip, Bool.not_true, Bool.false_eq_true, if_false]
      rw [List.filter_append, List.filter_eq_self.mpr hkeepInt,
          List.filter_eq_self.mpr hkeepFrac]
    have hparse : parseFloat? (String.mk ((c0 :: intTl) ++ '.' :: fracDs))
        = some (1 * ((digitsVal (c0 :: intTl) : ℚ)
            + (digitsVal fracDs : ℚ) / (10 : ℚ) ^ fracDs.length)) := by
      show parseFloat? (String.mk (c0 :: (intTl ++ '.' :: fracDs))) = _
      unfold parseFloat?
      simp only [if_neg hc0.2.2.1, if_neg hc0.2.2.2.1]
      show parseFloatCore ((c0 :: intTl) ++ '.' :: fracDs) 1 = _
      unfold parseFloatCore
      rw [takeWhile_append_of_all hDigAll, dropWhile_append_of_all hDigAll]
      rw [List.takeWhile_cons, List.dropWhile_cons]
      simp only [hdotD, Bool.false_eq_true, if_false, List.append_nil]
      rw [List.takeWhile_eq_self_iff.mpr hFracAll,
          List.dropWhile_eq_nil_iff.mpr hFracAll]
      simp
    rw [pyParseAmount, if_neg (hmkne _), hclean, hparse, one_mul]
  · -- without fraction part
    have hclean : cleanAmount (String.mk (sym :: (c0 :: intTl)))
        = String.mk (c0 :: intTl) := by
      show String.mk ((sym :: (c0 :: intTl)).filter fun c => !isStrippedChar c) = _
      congr 1
      rw [List.filter_cons]
      simp only [hsymStrip, Bool.not_true, Bool.false_eq_true, if_false]
      exact List.filter_eq_self.mpr hkeepInt
    have hparse : parseFloat? (String.mk (c0 :: intTl))
        = some (1 * (digitsVal (c0 :: intTl) : ℚ)) := by
      unfold parseFloat?
      simp only [if_neg hc0.2.2.1, if_neg hc0.2.2.2.1]
      show parseFloatCore (c0 :: intTl) 1 = _
      unfold parseFloatCore
      rw [List.takeWhile_eq_self_iff.mpr hDigAll,
          List.dropWhile_eq_nil_iff.mpr hDigAll]
      simp
    rw [pyParseAmount, if_neg (hmkne _), hclean, hparse, one_mul]

/-- C7 witness: `"$1234.56"` parses to `round2 (1234 + 56/100)`. -/
theorem C7_witness :
    pyParseAmount (some (String.mk ('$' :: (['1', '2', '3', '4'] ++ '.' :: ['5', '6']))))
      = round2 ((digitsVal ['1', '2', '3', '4'] : ℚ)
          + (digitsVal ['5', '6'] : ℚ) / (10 : ℚ) ^ (['5', '6'] : List Char).length) :=
  (C7_amended_parse_amount '$' (Or.inr rfl) ['1', '2', '3', '4'] ['5', '6']
    (by decide) (by decide) (by decide)).1

lemma backfillAux_length (rows : List RawTxn) (r : ℚ) :
    (backfillAux r rows).length = rows.length := by
  induction rows generalizing r with
  | nil => rfl
  | cons t ts ih =>
      by_cases hb : t.balance = 0 <;> simp [backfillAux, hb, ih]

lemma runningAt_cons (opening : ℚ) (t : RawTxn) (ts : List RawTxn) (k : ℕ) :
    runningAt opening (t :: ts) (k + 1)
      = runningAt (if t.balance = 0 then opening + t.credit - t.debit else t.balance) ts k := by
  unfold runningAt
  rw [List.take_succ_cons, List.foldl_cons]

lemma runningAt_zero (x : ℚ) (rows : List RawTxn) : runningAt x rows 0 = x := rfl

lemma backfillAux_getElem (rows : List RawTxn) (opening : ℚ) (i : ℕ)
    (h2 : i < rows.length) (h : i < (backfillAux opening rows).length) :
    (backfillAux opening rows)[i]
      = if rows[i].balance = 0
        then { rows[i] with balance := round2 (runningAt opening rows (i + 1)) }
        else rows[i] := by
  induction rows generalizing opening i with
  | nil => simp at h2
  | cons t ts ih =>
      by_cases hb : t.balance = 0
      · have hcons : backfillAux opening (t :: ts)
            = { t with balance := round2 (opening + t.credit - t.debit) }
              :: backfillAux (opening + t.credit - t.debit) ts := by
          simp [backfillAux, hb]
        cases i with
        | zero =>
            simp only [hcons, List.getElem_cons_zero, if_pos hb, runningAt_cons,
              runningAt_zero]
        | succ j =>
            have hj2 : j < ts.length := by simpa using h2
            have hj : j < (backfillAux (opening + t.credit - t.debit) ts).length := by
              rw [backfillAux_length]; exact hj2
            simp only [hcons, List.getElem_cons_succ, runningAt_cons, if_pos hb]
            exact ih (opening + t.credit - t.debit) j hj2 hj
      · have hcons : backfillAux opening (t :: ts) = t :: backfillAux t.balance ts := by
          simp [backfillAux, hb]
        cases i with
        | zero =>
            simp only [hcons, List.getElem_cons_zero, if_neg hb]
        | succ j =>
            have hj2 : j < ts.length := by simpa using h2
            have hj : j < (backfillAux t.balance ts).length := by
              rw [backfillAux_length]; exact hj2
            simp only [hcons, List.getElem_cons_succ, runningAt_cons, if_neg hb]
            exact ih t.balance j hj2 hj

/-- C8 (amended): in the balance backfill, a row whose PARSED balance is 0.0
(absent token, or a token that parses to zero — the code cannot tell these
apart) receives the running total, rounded to 2 decimals, where the running
total is seeded from the opening balance and folded over the preceding
rows; a row whose parsed balance is non-zero is emitted unchanged and
resets the running total.  The unamended claim — that a CAPTURED `0.00`
balance token is emitted as-is — is refuted by the counterexample. -/
theorem C8_amended_backfill (opening : ℚ) (rows : List RawTxn) :
    ((backfillAux opening rows).length = rows.length)
    ∧ ∀ i (h : i < (backfillAux opening rows).length) (h2 : i < rows.length),
        (rows[i].balance = 0 →
          (backfillAux opening rows)[i]
            = { rows[i] with balance := round2 (runningAt opening rows (i + 1)) })
        ∧ (rows[i].balance ≠ 0 → (backfillAux opening rows)[i] = rows[i]) := by
  refine ⟨backfillAux_length rows opening, ?_⟩
  intro i h h2
  rw [backfillAux_getElem rows opening i h2 h]
  constructor
  · intro hb; rw [if_pos hb]
  · intro hb; rw [if_neg hb]

/-- C8 witness: on two concrete rows with opening balance 500, the first
(parsed balance 0) gets the running total and the second (captured balance
250) is emitted unchanged. -/
theorem C8_witness :
    (backfillAux 500 exRows).length = exRows.length
    ∧ (backfillAux 500 exRows).get ⟨0, by rw [backfillAux_length]; decide⟩
        = { exRows.get ⟨0, by decide⟩ with balance := round2 (runningAt 500 exRows 1) }
    ∧ (backfillAux 500 exRows).get ⟨1, by rw [backfillAux_length]; decide⟩
        = exRows.get ⟨1, by decide⟩ := by
  have h := C8_amended_backfill 500 exRows
  refine ⟨h.1, ?_, ?_⟩
  · exact (h.2 0 (by rw [backfillAux_length]; decide) (by decide)).1 (by decide)
  · exact (h.2 1 (by rw [backfillAux_length]; decide) (by decide)).2 (by decide)

unseal Rat.add Rat.mul Rat.inv Rat.sub in
lemma c8_extract_eval :
    (extractWithRules "2024-01-10" exC8Text).transactions.map RawTxn.balance = [600] := by
  decide

unseal Rat.add Rat.mul Rat.inv Rat.sub in
lemma c8_zero_token_eval : pyParseAmount (some "0.00") = 0 := by decide

/-- C8 counterexample: the row `2024-01-02 Shop 100.00 0.00 0.00` carries a
CAPTURED balance token `0.00`, but because `0.00` parses to the same value
as an absent token, the backfill recomputes the balance as the running
total `600` (opening 500 + credit 100) instead of emitting the captured
`0.00` as-is. -/
theorem C8_counterexample :
    (extractWithRules "2024-01-10" exC8Text).transactions.map RawTxn.balance = [600]
    ∧ pyParseAmount (some "0.00") = 0
    ∧ (600 : ℚ) ≠ 0 :=
  ⟨c8_extract_eval, c8_zero_token_eval, by norm_num⟩

/-- C9: if no line of the input matches the transaction-row pattern, the
offline extractor returns exactly one placeholder transaction with zero
credit and debit, balance equal to the extracted-or-defaulted opening
balance and the fixed descriptive label, and closing balance equal to the
opening balance.  (The embedding is a total function: no input raises.) -/
theorem C9_no_rows_placeholder (today raw : String)
    (h : ∀ ln ∈ linesOf raw, matchTxnLine ln = none) :
    (extractWithRules today raw).transactions
        = [placeholderTxn today (openingBalanceOf (linesOf raw))]
    ∧ (extractWithRules today raw).closing_balance
        = (extractWithRules today raw).opening_balance
    ∧ ∀ t ∈ (extractWithRules today raw).transactions,
        t.credit = 0 ∧ t.debit = 0
        ∧ t.balance = (extractWithRules today raw).opening_balance
        ∧ t.description = "Parsed with offline rules" := by
  have hrows : (linesOf raw).filterMap (fun ln => (matchTxnLine ln).map rowOfMatch) = [] := by
    rw [List.filterMap_eq_nil_iff]
    intro ln hln
    rw [h ln hln]
    rfl
  have hmain : extractWithRules today raw
      = { transactions := [placeholderTxn today (openingBalanceOf (linesOf raw))],
          opening_balance := openingBalanceOf (linesOf raw),
          closing_balance := openingBalanceOf (linesOf raw) } := by
    simp [extractWithRules, hrows]
  rw [hmain]
  refine ⟨rfl, rfl, ?_⟩
  intro t ht
  simp only [List.mem_singleton] at ht
  subst ht
  exact ⟨rfl, rfl, rfl, rfl⟩

/-- C9 witness: concrete header-only text (with an opening balance of 250
and no transaction rows) yields exactly the placeholder. -/
theorem C9_witness :
    (extractWithRules "2024-01-10" exNoTxnText).transactions
        = [placeholderTxn "2024-01-10" (openingBalanceOf (linesOf exNoTxnText))] :=
  (C9_no_rows_placeholder "2024-01-10" exNoTxnText (by decide)).1

unseal Rat.add Rat.mul Rat.inv Rat.sub in
lemma round2_eighth_eval : round2 (1/8 : ℚ) = 12/100 := by decide

/-- C10 counterexample: the schema does not enable pydantic's
`validate_assignment`, so assigning `credit = 1/8` to an existing
transaction stores `1/8` unchanged, not `round(1/8, 2) = 0.12`. -/
theorem C10_counterexample :
    (exTxn1.setCredit (1/8)).credit = 1/8
    ∧ round2 (1/8 : ℚ) = 12/100
    ∧ (1/8 : ℚ) ≠ 12/100 :=
  ⟨rfl, round2_eighth_eval, by norm_num⟩

/-- C10 (amended): the `round_amounts` validator rounds `credit`, `debit`
and `balance` to 2 decimal places when a `Transaction` is constructed
(validated); plain attribute assignment afterwards stores the raw value
unrounded, because the model does not enable `validate_assignment`. -/
theorem C10_amended_rounding_at_construction_only
    (d : ℤ) (desc : String) (c de b : ℚ) (r : Option String) (od : Option ℤ)
    (t : Transaction) (v : ℚ) :
    (mkTransaction d desc c de b r od).credit = round2 c
    ∧ (mkTransaction d desc c de b r od).debit = round2 de
    ∧ (mkTransaction d desc c de b r od).balance = round2 b
    ∧ (mkTransaction d desc c de b r od).date = d
    ∧ (mkTransaction d desc c de b r od).description = desc
    ∧ (t.setCredit v).credit = v
    ∧ (t.setDebit v).debit = v
    ∧ (t.setBalance v).balance = v :=
  ⟨rfl, rfl, rfl, rfl, rfl, rfl, rfl, rfl⟩

